import Mathlib

/-!
# Verification of `chatGPT_trading_bot_refac`

Shallow embedding of the parts of the repository that the claims touch:

* `modules/tradePlanner.py` — `TradePlanner.select_best_sl_tp`
* `modules/websocket_client_real_time.py` — `normalize_tf`, the reconnect
  loop `run`, the heartbeat `_heartbeat`, `prefill_data`, and the
  per-message handler `_handle_ws_message`
* `modules/indicator.py` — the candlestick `classify` reduction

Python strings are modelled as lists of Unicode code points (`PyStr`);
Python numbers that appear in the claims (risk-reward ratios) as `ℚ`;
Python truthiness as an explicit function on a small dynamic-value type.
-/

/-- A Python string, modelled as its list of Unicode code points. -/
abbrev PyStr := List Nat

/-- Code points of a Lean string literal, used to write `PyStr` constants. -/
def s2l (s : String) : PyStr := s.data.map Char.toNat

/-- ASCII lowering of one code point; model of what `str.lower` does on the
ASCII tokens that timeframe strings are made of. -/
def lowerChar (n : Nat) : Nat :=
  if 65 ≤ n ∧ n ≤ 90 then n + 32 else n

/-- Model of Python `tf.lower()` on `PyStr`. -/
def pyLower (s : PyStr) : PyStr := s.map lowerChar

/-- The alias table of `normalize_tf`
(`modules/websocket_client_real_time.py`, lines 33–45), in source order:
canonical token paired with its accepted aliases. -/
def tfAliases : List (PyStr × List PyStr) :=
  [ (s2l "1m",   [s2l "1m", s2l "1min", s2l "minute1"])
  , (s2l "5m",   [s2l "5m", s2l "5min", s2l "minute5"])
  , (s2l "15m",  [s2l "15m", s2l "15min", s2l "minute15"])
  , (s2l "30m",  [s2l "30m", s2l "30min", s2l "minute30"])
  , (s2l "1h",   [s2l "1h", s2l "h1", s2l "hour1"])
  , (s2l "4h",   [s2l "4h", s2l "h4", s2l "hour4"])
  , (s2l "8h",   [s2l "8h", s2l "hour8"])
  , (s2l "12h",  [s2l "12h", s2l "hour12"])
  , (s2l "1d",   [s2l "1d", s2l "day1"])
  , (s2l "1w",   [s2l "1w", s2l "week1"])
  , (s2l "1mth", [s2l "1mth", s2l "month1"]) ]

/-- `normalize_tf` (`modules/websocket_client_real_time.py`, lines 31–49):
lowercase the input, return the canonical token of the first alias group
containing it, else the lowercased input itself. -/
def normalize_tf (tf : PyStr) : PyStr :=
  let t := pyLower tf
  match tfAliases.find? (fun p => p.2.contains t) with
  | some p => p.1
  | none => t

example : normalize_tf (s2l "h1") = s2l "1h" := by decide
example : normalize_tf (s2l "H1") = s2l "1h" := by decide
example : normalize_tf (s2l "hour1") = s2l "1h" := by decide
example : normalize_tf (s2l "2h") = s2l "2h" := by decide

/-! ## Trade planner (`modules/tradePlanner.py`) -/

/-- A value of the plan mapping in `TradePlanner.select_best_sl_tp`: either a
dict carrying a (truthy-or-not) `valid` entry and an optional `RRR` number, or
some non-dict value (which the loop skips). -/
inductive PlanVal where
  | dict (valid : Bool) (rrr : Option ℚ)
  | nondict
deriving DecidableEq

/-- One `(method, values)` item of the plan mapping, in enumeration order. -/
abbrev PlanEntry := PyStr × PlanVal

/-- Model of `values.get('RRR', 0)`: the stored ratio, or 0 when the key is
absent or the value is not a dict. -/
def rrrOf : PlanVal → ℚ
  | .dict _ (some r) => r
  | .dict _ none => 0
  | .nondict => 0

/-- Model of `isinstance(values, dict) and values.get('valid')`: the guard
under which `select_best_sl_tp` considers an entry. -/
def isConsidered : PlanVal → Bool
  | .dict valid _ => valid
  | .nondict => false

/-- Result of `select_best_sl_tp`: the copied winning dict tagged with its
method name, or the explicit `{"error": "No valid SL/TP method found"}`
failure marker. -/
inductive SelectResult where
  | found (method : PyStr) (values : PlanVal)
  | noValid
deriving DecidableEq

/-- The loop of `select_best_sl_tp` (`modules/tradePlanner.py`, lines 43–52):
`best` holds `best_method`/`best_result`, `bestRrr` holds `best_rrr`. -/
def selectAux : List PlanEntry → Option (PyStr × PlanVal) → ℚ → Option (PyStr × PlanVal)
  | [], best, _ => best
  | (m, v) :: rest, best, bestRrr =>
    if isConsidered v ∧ bestRrr < rrrOf v then
      selectAux rest (some (m, v)) (rrrOf v)
    else
      selectAux rest best bestRrr

/-- `TradePlanner.select_best_sl_tp` (`modules/tradePlanner.py`, lines 35–54):
scan the plan with `best_rrr` starting at 0 and a strict `>` update, returning
the best entry or the failure marker. -/
def select_best_sl_tp (plan : List PlanEntry) : SelectResult :=
  match selectAux plan none 0 with
  | some (m, v) => .found m v
  | none => .noValid

/-- The worked example of the spec: A (RRR=1.5, valid), B (RRR=3.0, valid),
C (RRR=5.0, invalid). -/
def examplePlan : List PlanEntry :=
  [ (s2l "A", .dict true (some (mkRat 3 2)))
  , (s2l "B", .dict true (some 3))
  , (s2l "C", .dict false (some 5)) ]

example : select_best_sl_tp examplePlan = .found (s2l "B") (.dict true (some 3)) := by decide
example : select_best_sl_tp [(s2l "A", .dict true (some 0))] = .noValid := by decide
example : select_best_sl_tp [] = .noValid := by decide

/-! ## WebSocket client (`modules/websocket_client_real_time.py`) -/

/-- A dynamic JSON value as far as the handler inspects one. -/
inductive PyVal where
  | vnull
  | vbool (b : Bool)
  | vint (i : Int)
  | vstr (s : PyStr)
deriving DecidableEq

/-- Python truthiness of a `PyVal`. -/
def truthy : PyVal → Bool
  | .vnull => false
  | .vbool b => b
  | .vint i => i != 0
  | .vstr s => !s.isEmpty

/-- Truthiness of `msg.get(key)`: an absent key yields `None`, which is falsy. -/
def truthyOpt : Option PyVal → Bool
  | none => false
  | some v => truthy v

/-- The fields of a decoded inbound frame that `_handle_ws_message` reads:
`ping`, `status`, `subscribe`, `kbar` and `data["symbol"]`. -/
structure Msg where
  ping : Option PyVal
  status : Option PyVal
  subscribe : Option PyVal
  kbar : Option PyStr
  dataSymbol : Option PyStr
deriving DecidableEq

/-- The externally observable effect of one `_handle_ws_message` call:
the pong value echoed (if any), whether the error branch consumed the frame,
the `df_store` key a kbar frame was appended under (if any), the symbol whose
order book a depth frame replaced (if any), and whether the frame was
forwarded to the injected message callback. -/
structure HandlerEffect where
  pongSent : Option PyVal
  errorLogged : Bool
  kbarKey : Option (Option PyStr × PyStr)
  depthSymbol : Option PyStr
  forwarded : Bool
deriving DecidableEq

/-- `WebSocketClient._handle_ws_message`
(`modules/websocket_client_real_time.py`, lines 299–351): answer a truthy
`ping` immediately and stop; drop `status == "error"` frames; append kbar
frames under `(data["symbol"], normalize_tf(kbar or ""))`; store depth frames
under a truthy `data["symbol"]`; then forward the frame to the callback
exactly when the callback is set and `subscribe` is a string starting with
`"ticker."`. -/
def handle_ws_message (hasCallback : Bool) (m : Msg) : HandlerEffect :=
  if truthyOpt m.ping then
    { pongSent := m.ping, errorLogged := false, kbarKey := none,
      depthSymbol := none, forwarded := false }
  else if m.status = some (.vstr (s2l "error")) then
    { pongSent := none, errorLogged := true, kbarKey := none,
      depthSymbol := none, forwarded := false }
  else
    let sub := m.subscribe.getD (.vstr [])
    let kbarKey :=
      if sub = .vstr (s2l "kbar") then
        some (m.dataSymbol, normalize_tf (m.kbar.getD []))
      else none
    let depthSymbol :=
      if sub = .vstr (s2l "depth") then
        match m.dataSymbol with
        | some s => if s.isEmpty then none else some s
        | none => none
      else none
    let forwarded :=
      hasCallback &&
        (match m.subscribe.getD (.vstr []) with
         | .vstr s => (s2l "ticker.").isPrefixOf s
         | _ => false)
    { pongSent := none, errorLogged := false, kbarKey := kbarKey,
      depthSymbol := depthSymbol, forwarded := forwarded }

/-- Does the frame carry a ticker-class subscription: `subscribe` defaults to
`""` and must be a string starting with `"ticker."`
(`modules/websocket_client_real_time.py`, lines 346–347). -/
def isTickerSub (m : Msg) : Bool :=
  match m.subscribe.getD (.vstr []) with
  | .vstr s => (s2l "ticker.").isPrefixOf s
  | _ => false

/-- `WebSocketClient.prefill_data`
(`modules/websocket_client_real_time.py`, lines 250–267): look up the REST
code under the *canonical* timeframe; if absent, skip; otherwise fetch and
write the rows under the `df_store` key `(symbol, timeframe)` — the **raw**
`timeframe` argument, not the canonical token. Returns the key written, if
any. -/
def prefill_data (restCodeMap : List (PyStr × PyStr)) (symbol timeframe : PyStr) :
    Option (PyStr × PyStr) :=
  let canonical_tf := normalize_tf timeframe
  match restCodeMap.find? (fun p => decide (p.1 = canonical_tf)) with
  | none => none
  | some _ => some (symbol, timeframe)

/-- The mutable client state the heartbeat could touch: `is_running` and
`_retries`. -/
structure ClientState where
  is_running : Bool
  retries : Nat
deriving DecidableEq

/-- `WebSocketClient._heartbeat`
(`modules/websocket_client_real_time.py`, lines 195–203), run over a trace of
ping outcomes (`true` = pong received in time, `false` = `ws.ping`/`wait_for`
raised): on failure the code logs and `break`s out of its own loop; no state
field is assigned anywhere in the coroutine. -/
def heartbeatRun (s : ClientState) : List Bool → ClientState
  | [] => s
  | pingOk :: rest =>
    if s.is_running then
      if pingOk then heartbeatRun s rest else s
    else s

/-- Outcome of one `connect()` call inside `run()`: it either returned
normally (graceful close) or raised. -/
inductive AttemptResult where
  | graceful
  | failed
deriving DecidableEq

/-- The backoff wait of `run()` after the `n`-th failure:
`min(5 * self._retries, 30)` (`modules/websocket_client_real_time.py`,
line 141). -/
def backoffWait (n : Nat) : Nat := min (5 * n) 30

/-- `WebSocketClient.run` (`modules/websocket_client_real_time.py`,
lines 130–142), over a trace of connect outcomes: while
`self._retries < self._max_retries`, call `connect`; a graceful return
breaks the loop; an exception increments `_retries` and sleeps
`backoffWait _retries`. Returns the final `_retries` and the list of waits
performed. -/
def runLoop (retries maxRetries : Nat) : List AttemptResult → Nat × List Nat
  | [] => (retries, [])
  | outcome :: rest =>
    if maxRetries ≤ retries then (retries, [])
    else
      match outcome with
      | .graceful => (retries, [])
      | .failed =>
        let r := retries + 1
        let res := runLoop r maxRetries rest
        (res.1, backoffWait r :: res.2)

example : (runLoop 0 5 (List.replicate 5 .failed)).2 = [5, 10, 15, 20, 25] := by decide
example : (runLoop 0 10 (List.replicate 7 .failed)).2 = [5, 10, 15, 20, 25, 30, 30] := by decide
example : (runLoop 0 5 [.failed, .failed, .graceful]).1 = 2 := by decide

/-! ## Candlestick classification (`modules/indicator.py`) -/

/-- The per-bar boolean pattern flags that feed the scores and the
classification (`modules/indicator.py`, lines 108–124). -/
structure PatternRow where
  doji : Bool
  hammer : Bool
  inv_hammer : Bool
  bullish_engulfing : Bool
  bearish_engulfing : Bool
deriving DecidableEq

/-- Python's bool-to-int coercion used by `.sum(axis=1)`. -/
def b2n (b : Bool) : Nat := if b then 1 else 0

/-- `bullish_score` (`modules/indicator.py`, line 123): sum of the hammer,
inverted-hammer and bullish-engulfing flags. -/
def bullish_score (r : PatternRow) : Nat :=
  b2n r.hammer + b2n r.inv_hammer + b2n r.bullish_engulfing

/-- `bearish_score` (`modules/indicator.py`, line 124): the
bearish-engulfing flag. -/
def bearish_score (r : PatternRow) : Nat := b2n r.bearish_engulfing

/-- The three-way label of `classify`. -/
inductive PatternLabel where
  | Bullish
  | Bearish
  | Neutral
deriving DecidableEq

/-- `classify` (`modules/indicator.py`, lines 126–134): doji wins, then the
strictly greater score, else Neutral. -/
def classify (r : PatternRow) : PatternLabel :=
  if r.doji then .Neutral
  else if bearish_score r < bullish_score r then .Bullish
  else if bullish_score r < bearish_score r then .Bearish
  else .Neutral

/-! ## Helper lemmas -/

lemma lowerChar_idem (n : Nat) : lowerChar (lowerChar n) = lowerChar n := by
  unfold lowerChar
  by_cases h : 65 ≤ n ∧ n ≤ 90
  · rw [if_pos h, if_neg (by omega)]
  · rw [if_neg h, if_neg h]

lemma pyLower_idem (s : PyStr) : pyLower (pyLower s) = pyLower s := by
  induction s with
  | nil => rfl
  | cons a t ih =>
    show lowerChar (lowerChar a) :: pyLower (pyLower t) = lowerChar a :: pyLower t
    rw [lowerChar_idem, ih]

lemma normalize_tf_canon (p : PyStr × List PyStr) (hp : p ∈ tfAliases) :
    normalize_tf p.1 = p.1 := by
  fin_cases hp <;> decide

lemma runLoop_replicate_failed (maxR : Nat) :
    ∀ (n r : Nat), r + n ≤ maxR →
      (runLoop r maxR (List.replicate n .failed)).2
        = (List.range n).map (fun i => backoffWait (r + i + 1)) := by
  intro n
  induction n with
  | zero => intro r _; simp [runLoop]
  | succ k ih =>
    intro r h
    have hlt : ¬ maxR ≤ r := by omega
    rw [List.replicate_succ]
    simp only [runLoop, hlt, if_false]
    rw [ih (r + 1) (by omega), List.range_succ_eq_map]
    simp only [List.map_cons, List.map_map, Nat.add_zero]
    congr 1
    apply List.map_congr_left
    intro i _
    simp only [Function.comp]
    congr 1
    omega

lemma runLoop_retries_le (outs : List AttemptResult) :
    ∀ (r maxR : Nat), r ≤ (runLoop r maxR outs).1 := by
  induction outs with
  | nil => intro r maxR; simp [runLoop]
  | cons o rest ih =>
    intro r maxR
    by_cases h : maxR ≤ r
    · simp [runLoop, h]
    · cases o with
      | graceful => simp [runLoop, h]
      | failed =>
        simp only [runLoop, h, if_false]
        have := ih (r + 1) maxR
        omega

lemma runLoop_wait_le (outs : List AttemptResult) :
    ∀ (r maxR w : Nat), w ∈ (runLoop r maxR outs).2 → w ≤ 30 := by
  induction outs with
  | nil => intro r maxR w hw; simp [runLoop] at hw
  | cons o rest ih =>
    intro r maxR w hw
    by_cases h : maxR ≤ r
    · simp [runLoop, h] at hw
    · cases o with
      | graceful => simp [runLoop, h] at hw
      | failed =>
        simp only [runLoop, h, if_false] at hw
        rcases List.mem_cons.mp hw with h1 | h2
        · rw [h1]; exact min_le_right _ _
        · exact ih (r + 1) maxR w h2

lemma selectAux_some_ne_none (plan : List PlanEntry) :
    ∀ (b : PyStr × PlanVal) (r : ℚ), selectAux plan (some b) r ≠ none := by
  induction plan with
  | nil => intro b r h; exact Option.noConfusion h
  | cons hd rest ih =>
    intro b r
    obtain ⟨m1, v1⟩ := hd
    simp only [selectAux]
    split
    · exact ih _ _
    · exact ih _ _

lemma selectAux_none_eq_none (plan : List PlanEntry) :
    ∀ (r : ℚ), selectAux plan none r = none ↔
      ∀ e ∈ plan, isConsidered e.2 = true → rrrOf e.2 ≤ r := by
  induction plan with
  | nil => intro r; simp [selectAux]
  | cons hd rest ih =>
    intro r
    obtain ⟨m1, v1⟩ := hd
    simp only [selectAux]
    split
    · next hc =>
      constructor
      · intro h; exact absurd h (selectAux_some_ne_none rest _ _)
      · intro h
        have h1 := h (m1, v1) (List.mem_cons_self _ _) hc.1
        exact absurd hc.2 (not_lt.mpr h1)
    · next hc =>
      rw [ih r]
      constructor
      · intro h e he hce
        rcases List.mem_cons.mp he with rfl | hmem
        · by_contra hgt
          exact hc ⟨hce, not_le.mp hgt⟩
        · exact h e hmem hce
      · intro h e he hce
        exact h e (List.mem_cons_of_mem _ he) hce

lemma selectAux_some_eq_iff (plan : List PlanEntry) :
    ∀ (b : PyStr × PlanVal) (r : ℚ) (m : PyStr) (v : PlanVal),
      selectAux plan (some b) r = some (m, v) ↔
        ((b = (m, v) ∧ ∀ e ∈ plan, isConsidered e.2 = true → rrrOf e.2 ≤ r)
         ∨ (isConsidered v = true ∧ r < rrrOf v ∧
            ∃ l1 l2, plan = l1 ++ (m, v) :: l2
              ∧ (∀ e ∈ l1, isConsidered e.2 = true → rrrOf e.2 < rrrOf v)
              ∧ (∀ e ∈ l2, isConsidered e.2 = true → rrrOf e.2 ≤ rrrOf v))) := by
  induction plan with
  | nil =>
    intro b r m v
    simp only [selectAux, Option.some.injEq, List.not_mem_nil, false_implies,
      implies_true, and_true]
    constructor
    · intro h; exact Or.inl h
    · rintro (h | ⟨-, -, l1, l2, hsplit, -, -⟩)
      · exact h
      · exact absurd hsplit.symm (List.append_ne_nil_of_right_ne_nil _ (List.cons_ne_nil _ _))
  | cons hd rest ih =>
    intro b r m v
    obtain ⟨m1, v1⟩ := hd
    simp only [selectAux]
    split
    · next hc =>
      rw [ih (m1, v1) (rrrOf v1) m v]
      constructor
      · rintro (⟨heq, hrest⟩ | ⟨hcv, hlt, l1, l2, hsplit, hl1, hl2⟩)
        · injection heq with hm hv
          subst hm; subst hv
          right
          refine ⟨hc.1, hc.2, [], rest, rfl, ?_, hrest⟩
          intro e he; exact absurd he (List.not_mem_nil e)
        · right
          refine ⟨hcv, lt_trans hc.2 hlt, (m1, v1) :: l1, l2, by rw [hsplit, List.cons_append], ?_, hl2⟩
          intro e he
          rcases List.mem_cons.mp he with rfl | hmem
          · intro _; exact hlt
          · exact hl1 e hmem
      · rintro (⟨heq, hall⟩ | ⟨hcv, hltr, l1, l2, hsplit, hl1, hl2⟩)
        · exfalso
          have h1 := hall (m1, v1) (List.mem_cons_self _ _) hc.1
          exact absurd hc.2 (not_lt.mpr h1)
        · cases l1 with
          | nil =>
            simp only [List.nil_append] at hsplit
            injection hsplit with hhd hrest
            injection hhd with hm hv
            subst hm; subst hv; subst hrest
            left
            exact ⟨rfl, hl2⟩
          | cons a l1t =>
            simp only [List.cons_append] at hsplit
            injection hsplit with hhd hrest
            subst hhd
            right
            refine ⟨hcv, ?_, l1t, l2, hrest, ?_, hl2⟩
            · exact hl1 (m1, v1) (List.mem_cons_self _ _) hc.1
            · intro e he; exact hl1 e (List.mem_cons_of_mem _ he)
    · next hc =>
      rw [ih b r m v]
      constructor
      · rintro (⟨heq, hrest⟩ | ⟨hcv, hltr, l1, l2, hsplit, hl1, hl2⟩)
        · left
          refine ⟨heq, ?_⟩
          intro e he hce
          rcases List.mem_cons.mp he with rfl | hmem
          · by_contra hgt
            exact hc ⟨hce, not_le.mp hgt⟩
          · exact hrest e hmem hce
        · right
          refine ⟨hcv, hltr, (m1, v1) :: l1, l2, by rw [hsplit, List.cons_append], ?_, hl2⟩
          intro e he
          rcases List.mem_cons.mp he with rfl | hmem
          · intro hce
            have h1 : rrrOf (m1, v1).2 ≤ r := by
              by_contra hgt
              exact hc ⟨hce, not_le.mp hgt⟩
            exact lt_of_le_of_lt h1 hltr
          · exact hl1 e hmem
      · rintro (⟨heq, hall⟩ | ⟨hcv, hltr, l1, l2, hsplit, hl1, hl2⟩)
        · left
          refine ⟨heq, ?_⟩
          intro e he hce
          exact hall e (List.mem_cons_of_mem _ he) hce
        · cases l1 with
          | nil =>
            simp only [List.nil_append] at hsplit
            injection hsplit with hhd hrest
            injection hhd with hm hv
            exfalso
            subst hm; subst hv
            exact hc ⟨hcv, hltr⟩
          | cons a l1t =>
            simp only [List.cons_append] at hsplit
            injection hsplit with hhd hrest
            subst hhd
            right
            exact ⟨hcv, hltr, l1t, l2, hrest,
              fun e he => hl1 e (List.mem_cons_of_mem _ he), hl2⟩

lemma selectAux_none_eq_some_iff (plan : List PlanEntry) :
    ∀ (r : ℚ) (m : PyStr) (v : PlanVal),
      selectAux plan none r = some (m, v) ↔
        (isConsidered v = true ∧ r < rrrOf v ∧
         ∃ l1 l2, plan = l1 ++ (m, v) :: l2
           ∧ (∀ e ∈ l1, isConsidered e.2 = true → rrrOf e.2 < rrrOf v)
           ∧ (∀ e ∈ l2, isConsidered e.2 = true → rrrOf e.2 ≤ rrrOf v)) := by
  induction plan with
  | nil =>
    intro r m v
    simp only [selectAux]
    constructor
    · intro h; exact Option.noConfusion h
    · rintro ⟨-, -, l1, l2, hsplit, -, -⟩
      exact absurd hsplit.symm (List.append_ne_nil_of_right_ne_nil _ (List.cons_ne_nil _ _))
  | cons hd rest ih =>
    intro r m v
    obtain ⟨m1, v1⟩ := hd
    simp only [selectAux]
    split
    · next hc =>
      rw [selectAux_some_eq_iff rest (m1, v1) (rrrOf v1) m v]
      constructor
      · rintro (⟨heq, hrest⟩ | ⟨hcv, hlt, l1, l2, hsplit, hl1, hl2⟩)
        · injection heq with hm hv
          subst hm; subst hv
          refine ⟨hc.1, hc.2, [], rest, rfl, ?_, hrest⟩
          intro e he; exact absurd he (List.not_mem_nil e)
        · refine ⟨hcv, lt_trans hc.2 hlt, (m1, v1) :: l1, l2,
            by rw [hsplit, List.cons_append], ?_, hl2⟩
          intro e he
          rcases List.mem_cons.mp he with rfl | hmem
          · intro _; exact hlt
          · exact hl1 e hmem
      · rintro ⟨hcv, hltr, l1, l2, hsplit, hl1, hl2⟩
        cases l1 with
        | nil =>
          simp only [List.nil_append] at hsplit
          injection hsplit with hhd hrest
          injection hhd with hm hv
          subst hm; subst hv; subst hrest
          left
          exact ⟨rfl, hl2⟩
        | cons a l1t =>
          simp only [List.cons_append] at hsplit
          injection hsplit with hhd hrest
          subst hhd
          right
          refine ⟨hcv, ?_, l1t, l2, hrest, ?_, hl2⟩
          · exact hl1 (m1, v1) (List.mem_cons_self _ _) hc.1
          · intro e he; exact hl1 e (List.mem_cons_of_mem _ he)
    · next hc =>
      rw [ih r m v]
      constructor
      · rintro ⟨hcv, hltr, l1, l2, hsplit, hl1, hl2⟩
        refine ⟨hcv, hltr, (m1, v1) :: l1, l2, by rw [hsplit, List.cons_append], ?_, hl2⟩
        intro e he
        rcases List.mem_cons.mp he with rfl | hmem
        · intro hce
          have h1 : rrrOf (m1, v1).2 ≤ r := by
            by_contra hgt
            exact hc ⟨hce, not_le.mp hgt⟩
          exact lt_of_le_of_lt h1 hltr
        · exact hl1 e hmem
      · rintro ⟨hcv, hltr, l1, l2, hsplit, hl1, hl2⟩
        cases l1 with
        | nil =>
          simp only [List.nil_append] at hsplit
          injection hsplit with hhd hrest
          injection hhd with hm hv
          exfalso
          subst hm; subst hv
          exact hc ⟨hcv, hltr⟩
        | cons a l1t =>
          simp only [List.cons_append] at hsplit
          injection hsplit with hhd hrest
          subst hhd
          exact ⟨hcv, hltr, l1t, l2, hrest,
            fun e he => hl1 e (List.mem_cons_of_mem _ he), hl2⟩

lemma selectAux_skip_nondict (l1 : List PlanEntry) :
    ∀ (mm : PyStr) (l2 : List PlanEntry) (b : Option (PyStr × PlanVal)) (r : ℚ),
      selectAux (l1 ++ (mm, .nondict) :: l2) b r = selectAux (l1 ++ l2) b r := by
  induction l1 with
  | nil =>
    intro mm l2 b r
    show selectAux ((mm, .nondict) :: l2) b r = selectAux l2 b r
    simp only [selectAux]
    rw [if_neg (fun hcon => by simp [isConsidered] at hcon)]
  | cons a t ih =>
    intro mm l2 b r
    obtain ⟨m1, v1⟩ := a
    simp only [List.cons_append, selectAux]
    split
    · exact ih mm l2 _ _
    · exact ih mm l2 _ _

lemma select_eq_found_iff (plan : List PlanEntry) (m : PyStr) (v : PlanVal) :
    select_best_sl_tp plan = .found m v ↔ selectAux plan none 0 = some (m, v) := by
  unfold select_best_sl_tp
  cases h : selectAux plan none 0 with
  | some p =>
    obtain ⟨m0, v0⟩ := p
    simp [SelectResult.found.injEq, Prod.mk.injEq]
  | none => simp

lemma select_eq_noValid_iff (plan : List PlanEntry) :
    select_best_sl_tp plan = .noValid ↔ selectAux plan none 0 = none := by
  unfold select_best_sl_tp
  cases h : selectAux plan none 0 with
  | some p =>
    obtain ⟨m0, v0⟩ := p
    simp
  | none => simp

/-! ## Claim theorems -/

/-- C1 (amended): `select_best_sl_tp` returns `found m v` exactly when `v` is
a valid entry with strictly positive risk-reward ratio occurring in the plan
such that every *earlier* valid entry has a strictly smaller ratio (first
encountered wins on ties) and every later valid entry has a smaller-or-equal
ratio; it returns the explicit failure marker exactly when no valid entry has
a ratio above 0 — in particular when no entry is valid at all. -/
theorem select_best_sl_tp_spec (plan : List PlanEntry) :
    (∀ (m : PyStr) (v : PlanVal),
      select_best_sl_tp plan = .found m v ↔
        (isConsidered v = true ∧ 0 < rrrOf v ∧
         ∃ l1 l2, plan = l1 ++ (m, v) :: l2
           ∧ (∀ e ∈ l1, isConsidered e.2 = true → rrrOf e.2 < rrrOf v)
           ∧ (∀ e ∈ l2, isConsidered e.2 = true → rrrOf e.2 ≤ rrrOf v)))
    ∧ (select_best_sl_tp plan = .noValid ↔
        ∀ e ∈ plan, isConsidered e.2 = true → rrrOf e.2 ≤ 0) := by
  constructor
  · intro m v
    rw [select_eq_found_iff plan m v, selectAux_none_eq_some_iff plan 0 m v]
  · rw [select_eq_noValid_iff plan, selectAux_none_eq_none plan 0]

/-- Witness for C1: on the spec's example plan the selection returns
method B. -/
theorem select_best_sl_tp_spec_witness :
    select_best_sl_tp examplePlan = .found (s2l "B") (.dict true (some 3)) :=
  ((select_best_sl_tp_spec examplePlan).1 (s2l "B") (.dict true (some 3))).mpr
    ⟨by decide, by decide,
     [(s2l "A", .dict true (some (mkRat 3 2)))], [(s2l "C", .dict false (some 5))],
     by decide, by decide, by decide⟩

/-- C1 counterexample: a plan whose only entry is valid with RRR = 0. The
claim as stated says the selection returns the valid candidate with the
greatest risk-reward ratio (here that sole entry), but the code returns the
failure marker because its running best starts at 0 with a strict
comparison. -/
theorem select_valid_zero_rrr_rejected :
    select_best_sl_tp [(s2l "atr", .dict true (some 0))] = .noValid
    ∧ isConsidered (PlanVal.dict true (some 0)) = true := by decide

/-- C9: a selected candidate is always valid with strictly positive ratio; a
plan whose valid entries all have ratio ≤ 0 (or whose RRR keys are absent,
defaulting to 0) yields the failure marker even though valid entries exist;
and a non-dict plan value is skipped without affecting the result. -/
theorem select_nonpositive_and_nondict :
    (∀ (plan : List PlanEntry) (m : PyStr) (v : PlanVal),
        select_best_sl_tp plan = .found m v → isConsidered v = true ∧ 0 < rrrOf v)
    ∧ (∀ plan : List PlanEntry,
        (∀ e ∈ plan, isConsidered e.2 = true → rrrOf e.2 ≤ 0) →
        select_best_sl_tp plan = .noValid)
    ∧ (∀ (l1 l2 : List PlanEntry) (mm : PyStr),
        select_best_sl_tp (l1 ++ (mm, .nondict) :: l2) = select_best_sl_tp (l1 ++ l2)) := by
  refine ⟨?_, ?_, ?_⟩
  · intro plan m v h
    have h1 := (selectAux_none_eq_some_iff plan 0 m v).mp ((select_eq_found_iff plan m v).mp h)
    exact ⟨h1.1, h1.2.1⟩
  · intro plan h
    exact (select_eq_noValid_iff plan).mpr ((selectAux_none_eq_none plan 0).mpr h)
  · intro l1 l2 mm
    unfold select_best_sl_tp
    rw [selectAux_skip_nondict l1 mm l2 none 0]

/-- Witness for C9: a plan with a zero-RRR and a negative-RRR valid entry
yields the failure marker, and a non-dict entry does not change the
selection. -/
theorem select_nonpositive_and_nondict_witness :
    (isConsidered (PlanVal.dict true (some 3)) = true
      ∧ 0 < rrrOf (PlanVal.dict true (some 3)))
    ∧ select_best_sl_tp
        [(s2l "A", .dict true (some 0)), (s2l "B", .dict true (some (mkRat (-2) 1)))]
        = .noValid
    ∧ select_best_sl_tp [(s2l "A", .dict true (some 3)), (s2l "X", .nondict)]
        = select_best_sl_tp [(s2l "A", .dict true (some 3))] :=
  ⟨select_nonpositive_and_nondict.1 examplePlan (s2l "B") (.dict true (some 3)) (by decide),
   select_nonpositive_and_nondict.2.1 _ (by decide),
   select_nonpositive_and_nondict.2.2 [(s2l "A", .dict true (some 3))] [] (s2l "X")⟩

/-- C2: in the reconnect loop `run`, the wait after the `n`-th consecutive
failed connection attempt is `min(5 * n, 30)` (base 5 s, cap 30 s): for `n`
failures within the retry budget the recorded waits are exactly
`[min(5·1,30), …, min(5·n,30)]`, so attempts 1–5 wait 5, 10, 15, 20, 25
seconds and attempt 7 waits 30 seconds. -/
theorem reconnect_backoff_policy (n maxR : Nat) (h : n ≤ maxR) :
    (runLoop 0 maxR (List.replicate n .failed)).2
      = (List.range n).map (fun i => min (5 * (i + 1)) 30) := by
  have h0 := runLoop_replicate_failed maxR n 0 (by omega)
  simpa [backoffWait] using h0

/-- Witness for C2 at `n = 7`, `maxR = 10`: waits `[5,10,15,20,25,30,30]`. -/
theorem reconnect_backoff_policy_witness :
    (runLoop 0 10 (List.replicate 7 .failed)).2 = [5, 10, 15, 20, 25, 30, 30] :=
  (reconnect_backoff_policy 7 10 (by decide)).trans (by decide)

/-- C5 (amended): the retry counter of `run` never decreases (in particular it
is never reset to 0 once positive, not even by a later graceful session),
every backoff wait is at most the 30-second cap, the first failure waits
`5 = min(5·1, 30)` (counting starts at 1), and a graceful close leaves the
counter exactly as it was. -/
theorem retry_counter_policy :
    (∀ (outs : List AttemptResult) (r maxR : Nat), r ≤ (runLoop r maxR outs).1)
    ∧ (∀ (outs : List AttemptResult) (r maxR w : Nat),
        w ∈ (runLoop r maxR outs).2 → w ≤ 30)
    ∧ (∀ (maxR : Nat) (rest : List AttemptResult), 1 ≤ maxR →
        (runLoop 0 maxR (.failed :: rest)).2.head? = some 5)
    ∧ (∀ (r maxR : Nat) (rest : List AttemptResult), r < maxR →
        (runLoop r maxR (.graceful :: rest)).1 = r) := by
  refine ⟨runLoop_retries_le, runLoop_wait_le, ?_, ?_⟩
  · intro maxR rest h
    have h0 : ¬ maxR ≤ 0 := by omega
    simp [runLoop, h0]
    decide
  · intro r maxR rest h
    have h0 : ¬ maxR ≤ r := by omega
    simp [runLoop, h0]

/-- Witness for C5 at concrete traces. -/
theorem retry_counter_policy_witness :
    2 ≤ (runLoop 2 5 [.failed, .graceful]).1
    ∧ 5 ≤ 30
    ∧ (runLoop 0 5 [.failed, .failed, .failed]).2.head? = some 5
    ∧ (runLoop 3 5 [.graceful]).1 = 3 :=
  ⟨retry_counter_policy.1 [.failed, .graceful] 2 5,
   retry_counter_policy.2.1 [.failed] 0 5 5 (by decide),
   retry_counter_policy.2.2.1 5 [.failed, .failed] (by decide),
   retry_counter_policy.2.2.2 3 5 [.graceful] (by decide)⟩

/-- C5 counterexample: a trace of two failed attempts followed by a session
that goes Live and closes gracefully ends with `_retries = 2`, not 0 — the
code never resets the counter, contradicting the claimed reset on graceful
close. -/
theorem retry_counter_not_reset_on_graceful :
    (runLoop 0 5 [.failed, .failed, .graceful]).1 = 2 := by decide

/-- C4: the heartbeat coroutine, over any trace of ping outcomes — including
an unacknowledged ping, where the code merely logs and breaks out of its own
loop — never changes the client state: `is_running` stays as it was and
`_retries` is not incremented, so a ping timeout does not by itself take the
session out of Live or schedule a reconnect. This contradicts the claimed
teardown-and-reconnect behaviour. -/
theorem heartbeat_never_mutates_state (s : ClientState) (pings : List Bool) :
    heartbeatRun s pings = s := by
  induction pings with
  | nil => rfl
  | cons ok rest ih =>
    show (if s.is_running then if ok then heartbeatRun s rest else s else s) = s
    by_cases h : s.is_running <;> cases ok <;> simp [h, ih]

/-- The REST code map of the C3 scenario: canonical `"1h"` maps to the REST
code `"hour1"`. -/
def restMapEx : List (PyStr × PyStr) := [(s2l "1h", s2l "hour1")]

/-- A kbar frame for the C3 scenario, carrying the timeframe alias `"h1"`. -/
def kbarMsgEx : Msg :=
  { ping := none, status := none, subscribe := some (.vstr (s2l "kbar")),
    kbar := some (s2l "h1"), dataSymbol := some (s2l "btc_usdt") }

/-- C3: alias drift between the two `df_store` keys. For the configured
timeframe alias `"h1"` (canonical token `"1h"`), `prefill_data` writes the
bucket `(symbol, "h1")` — the raw alias — while the kbar branch of
`_handle_ws_message` appends the same series under `(symbol, "1h")` — the
canonical token. Both aliases normalize to the same token, yet the two keys
differ, so one series occupies two distinct buckets. -/
theorem df_store_key_alias_drift :
    normalize_tf (s2l "h1") = normalize_tf (s2l "1h")
    ∧ prefill_data restMapEx (s2l "btc_usdt") (s2l "h1")
        = some (s2l "btc_usdt", s2l "h1")
    ∧ (handle_ws_message true kbarMsgEx).kbarKey
        = some (some (s2l "btc_usdt"), s2l "1h")
    ∧ (s2l "h1") ≠ (s2l "1h") := by decide

/-- C7: the candlestick reduction: a set doji flag forces Neutral; otherwise
the label is Bullish exactly when the bullish score strictly exceeds the
bearish score, Bearish exactly when the bearish score strictly exceeds the
bullish score, and Neutral exactly when the two scores are equal. -/
theorem classify_reduction (r : PatternRow) :
    (r.doji = true → classify r = .Neutral)
    ∧ (r.doji = false →
        ((classify r = .Bullish ↔ bearish_score r < bullish_score r)
         ∧ (classify r = .Bearish ↔ bullish_score r < bearish_score r)
         ∧ (classify r = .Neutral ↔ bullish_score r = bearish_score r))) := by
  obtain ⟨d, f1, f2, f3, f4⟩ := r
  revert d f1 f2 f3 f4
  decide

/-- Witness for C7: a hammer-only bar classifies Bullish. -/
theorem classify_reduction_witness :
    classify ⟨false, true, false, false, false⟩ = .Bullish :=
  ((classify_reduction ⟨false, true, false, false, false⟩).2 rfl).1.mpr (by decide)

/-- C6: with the message callback injected, a frame that is not a truthy ping
and not a server error is forwarded to the callback exactly when its
`subscribe` field is a string starting with `"ticker."`; a truthy-ping frame
or an error frame is never forwarded. In particular kbar, depth and every
other subscribe value are never forwarded to the signal pathway. -/
theorem ticker_forwarding (m : Msg) :
    (truthyOpt m.ping = false → m.status ≠ some (.vstr (s2l "error")) →
      ((handle_ws_message true m).forwarded = true ↔ isTickerSub m = true))
    ∧ (truthyOpt m.ping = true → (handle_ws_message true m).forwarded = false)
    ∧ (m.status = some (.vstr (s2l "error")) →
        (handle_ws_message true m).forwarded = false) := by
  refine ⟨?_, ?_, ?_⟩
  · intro h1 h2
    simp [handle_ws_message, h1, h2, isTickerSub]
  · intro h1
    simp [handle_ws_message, h1]
  · intro h1
    by_cases hp : truthyOpt m.ping = true
    · simp [handle_ws_message, hp]
    · simp only [Bool.not_eq_true] at hp
      simp [handle_ws_message, hp, h1]

/-- A ticker frame and a ping frame for the C6 and C10 witnesses. -/
def tickerMsgEx : Msg :=
  { ping := none, status := none,
    subscribe := some (.vstr (s2l "ticker.btc_usdt")),
    kbar := none, dataSymbol := none }

/-- A frame whose `ping` field is truthy. -/
def pingMsgEx : Msg :=
  { ping := some (.vint 7), status := none, subscribe := none,
    kbar := none, dataSymbol := none }

/-- Witness for C6: the ticker frame is forwarded; the ping frame is not. -/
theorem ticker_forwarding_witness :
    (handle_ws_message true tickerMsgEx).forwarded = true
    ∧ (handle_ws_message true pingMsgEx).forwarded = false :=
  ⟨((ticker_forwarding tickerMsgEx).1 (by decide) (by decide)).mpr (by decide),
   (ticker_forwarding pingMsgEx).2.1 (by decide)⟩

/-- C10: a frame whose `ping` field is present but falsy is not answered with
a pong — the handler behaves exactly as if the field were absent, falling
through to the later classification steps — while a truthy `ping` value
triggers an immediate pong echoing the same value and the frame is dropped
from all further processing. -/
theorem falsy_ping_falls_through (hasCb : Bool) (m : Msg) (v : PyVal)
    (hv : m.ping = some v) :
    (truthy v = false →
      handle_ws_message hasCb m = handle_ws_message hasCb { m with ping := none })
    ∧ (truthy v = true →
      handle_ws_message hasCb m
        = { pongSent := some v, errorLogged := false, kbarKey := none,
            depthSymbol := none, forwarded := false }) := by
  constructor
  · intro ht
    simp [handle_ws_message, truthyOpt, hv, ht]
  · intro ht
    simp [handle_ws_message, truthyOpt, hv, ht]

/-- A frame with a falsy (zero) ping value that also carries an error status,
so that falling through is observable. -/
def falsyPingMsgEx : Msg :=
  { ping := some (.vint 0), status := some (.vstr (s2l "error")),
    subscribe := none, kbar := none, dataSymbol := none }

/-- Witness for C10: the zero ping falls through (the error branch fires, as
for the same frame without a ping field); the truthy ping is echoed. -/
theorem falsy_ping_falls_through_witness :
    handle_ws_message true falsyPingMsgEx
      = handle_ws_message true { falsyPingMsgEx with ping := none }
    ∧ handle_ws_message true pingMsgEx
      = { pongSent := some (.vint 7), errorLogged := false, kbarKey := none,
          depthSymbol := none, forwarded := false } :=
  ⟨(falsy_ping_falls_through true falsyPingMsgEx (.vint 0) rfl).1 (by decide),
   (falsy_ping_falls_through true pingMsgEx (.vint 7) rfl).2 (by decide)⟩

/-- C8: every alias of an alias group normalizes to what the group's
canonical token normalizes to, and `normalize_tf` is idempotent on every
string. -/
theorem normalize_tf_spec :
    (∀ p ∈ tfAliases, ∀ a ∈ p.2, normalize_tf a = normalize_tf p.1)
    ∧ (∀ x : PyStr, normalize_tf (normalize_tf x) = normalize_tf x) := by
  constructor
  · decide
  · intro x
    cases h : tfAliases.find? (fun q => q.2.contains (pyLower x)) with
    | some p =>
      have hmem : p ∈ tfAliases := List.mem_of_find?_eq_some h
      have h1 : normalize_tf x = p.1 := by
        show (match tfAliases.find? (fun q => q.2.contains (pyLower x)) with
              | some q => q.1
              | none => pyLower x) = p.1
        rw [h]
      rw [h1, normalize_tf_canon p hmem]
    | none =>
      have h1 : normalize_tf x = pyLower x := by
        show (match tfAliases.find? (fun q => q.2.contains (pyLower x)) with
              | some q => q.1
              | none => pyLower x) = pyLower x
        rw [h]
      rw [h1]
      show (match tfAliases.find? (fun q => q.2.contains (pyLower (pyLower x))) with
            | some q => q.1
            | none => pyLower (pyLower x)) = pyLower x
      rw [pyLower_idem, h]

/-- Witness for C8: `"h1"` normalizes like `"1h"`, and normalizing an unknown
token twice equals normalizing it once. -/
theorem normalize_tf_spec_witness :
    normalize_tf (s2l "h1") = normalize_tf (s2l "1h")
    ∧ normalize_tf (normalize_tf (s2l "XYZ")) = normalize_tf (s2l "XYZ") :=
  ⟨normalize_tf_spec.1 (s2l "1h", [s2l "1h", s2l "h1", s2l "hour1"])
      (by decide) (s2l "h1") (by decide),
   normalize_tf_spec.2 (s2l "XYZ")⟩
